import Mathlib

/-!
Verification of the dispatch engine of a small TCP-level HTTP load balancer
(`src/main.rs`): the raw HTTP message framer `read_http`, the round-robin
dispatcher `load_balance`, the background health monitor `check_health`, and
host-list initialization `initialize_hosts`.

Byte streams are modelled as `List Nat` (each element one byte of everything
the peer will ever send before closing); decoded Rust `String`s are modelled
as lists of Unicode code points (`List Nat`).  Loops whose termination is not
structural are compiled with an exact fuel argument (the fuel chosen is always
provably sufficient), so every definition evaluates by kernel reduction.
-/

namespace LB

/-- The hardcoded verbosity constant (`const VERBOSE: u8 = 1`). -/
def VERBOSE : Nat := 1

/-- Rust `char::is_whitespace`: the Unicode `White_Space` property,
on code points. -/
def isWSpace (c : Nat) : Bool :=
  (9 ≤ c && c ≤ 13) || c = 32 || c = 0x85 || c = 0xA0 || c = 0x1680 ||
  (0x2000 ≤ c && c ≤ 0x200A) || c = 0x2028 || c = 0x2029 || c = 0x202F ||
  c = 0x205F || c = 0x3000

/-- Rust source `fn strip(s: String) -> String`: drop every whitespace character. -/
def strip (cps : List Nat) : List Nat := cps.filter (fun c => !isWSpace c)

/-- A UTF-8 continuation byte (`0x80 ..= 0xBF`). -/
def isCont (b : Nat) : Bool := 0x80 ≤ b && b ≤ 0xBF

/-- Allowed second byte of a three-byte UTF-8 sequence (excludes overlong
encodings and surrogates, as Rust's `String::from_utf8` does). -/
def snd3ok (b0 b1 : Nat) : Bool :=
  if b0 = 0xE0 then 0xA0 ≤ b1 && b1 ≤ 0xBF
  else if b0 = 0xED then 0x80 ≤ b1 && b1 ≤ 0x9F
  else isCont b1

/-- Allowed second byte of a four-byte UTF-8 sequence (excludes overlong
encodings and code points above `0x10FFFF`). -/
def snd4ok (b0 b1 : Nat) : Bool :=
  if b0 = 0xF0 then 0x90 ≤ b1 && b1 ≤ 0xBF
  else if b0 = 0xF4 then 0x80 ≤ b1 && b1 ≤ 0x8F
  else isCont b1

/-- Strict UTF-8 decoding of a byte list to a code-point list; `none` models
a `String::from_utf8` error (and hence an `unwrap` panic at the call sites
in `read_http`). -/
def utf8Decode : List Nat → Option (List Nat)
  | [] => some []
  | b0 :: r0 =>
    if b0 ≤ 0x7F then
      (utf8Decode r0).map (fun t => b0 :: t)
    else if 0xC2 ≤ b0 && b0 ≤ 0xDF then
      match r0 with
      | b1 :: r1 =>
        if isCont b1 then
          (utf8Decode r1).map (fun t => ((b0 - 0xC0) * 64 + (b1 - 0x80)) :: t)
        else none
      | [] => none
    else if 0xE0 ≤ b0 && b0 ≤ 0xEF then
      match r0 with
      | b1 :: b2 :: r2 =>
        if snd3ok b0 b1 && isCont b2 then
          (utf8Decode r2).map
            (fun t => ((b0 - 0xE0) * 4096 + (b1 - 0x80) * 64 + (b2 - 0x80)) :: t)
        else none
      | _ => none
    else if 0xF0 ≤ b0 && b0 ≤ 0xF4 then
      match r0 with
      | b1 :: b2 :: b3 :: r3 =>
        if snd4ok b0 b1 && isCont b2 && isCont b3 then
          (utf8Decode r3).map
            (fun t => ((b0 - 0xF0) * 262144 + (b1 - 0x80) * 4096 +
                       (b2 - 0x80) * 64 + (b3 - 0x80)) :: t)
        else none
      | _ => none
    else none

/-- Rust `str::split(": ")` on code-point lists: split at every
non-overlapping, leftmost-first occurrence of `": "` (`[58, 32]`). -/
def splitColonSp (acc : List Nat) : List Nat → List (List Nat)
  | [] => [acc.reverse]
  | [a] => [(acc.reverse ++ [a])]
  | a :: b :: rest =>
    if a = 58 && b = 32 then acc.reverse :: splitColonSp [] rest
    else splitColonSp (a :: acc) (b :: rest)

/-- Model of `header_line.split(": ").collect()`. -/
def splitHeader (cps : List Nat) : List (List Nat) := splitColonSp [] cps

/-- Rust `str::parse::<usize>()`: optional leading `+`, then one or more
ASCII digits, value below `2^64` (64-bit `usize`); `none` models a parse
error (and hence an `unwrap` panic). -/
def parseUsize (cps : List Nat) : Option Nat :=
  let ds := match cps with
    | 43 :: rest => rest
    | other => other
  if ds = [] then none
  else if ds.all (fun c => 48 ≤ c && c ≤ 57) then
    let v := ds.foldl (fun a c => a * 10 + (c - 48)) 0
    if v < 2 ^ 64 then some v else none
  else none

/-- The code points of the string `"Content-Length"`. -/
def contentLengthCps : List Nat :=
  [67, 111, 110, 116, 101, 110, 116, 45, 76, 101, 110, 103, 116, 104]

/-- Processing of one decoded header line by the loop body of `read_http`
(lines 57-63): split on `": "`; if the first part is exactly
`"Content-Length"`, replace the running content length with the parse of the
whitespace-stripped second part.  `none` models a panic: either the
`parse().unwrap()` or the `header[1]` index when the line has no `": "`. -/
def clUpdate (cps : List Nat) (cl : Nat) : Option Nat :=
  let parts := splitHeader cps
  if parts.headD [] = contentLengthCps then
    match parts.get? 1 with
    | none => none
    | some v => parseUsize (strip v)
  else some cl

/-- Model of `BufRead::read_until(b'\n')`: the consumed bytes (delimiter included when
present; everything up to end of stream otherwise) and the unread rest. -/
def readLine : List Nat → List Nat × List Nat
  | [] => ([], [])
  | b :: r =>
    if b = 10 then ([10], r)
    else
      let p := readLine r
      (b :: p.1, p.2)

/-- Outcome of the header loop of `read_http`. -/
inductive HLoopOut where
  | ok (buf : List Nat) (cl : Nat) (rest : List Nat)
  | panic
  | diverge
deriving DecidableEq, Repr

/-- The header loop of `read_http` (lines 49-72), with fuel.  On an exhausted
stream `read_until` keeps returning `Ok(0)` with an empty line, which never
equals `"\r\n"`, so the loop spins forever: that is the `.diverge` outcome
(the `[]` case).  The fuel is only a structural-recursion device; it is at
least the stream length at every use, which is sufficient because every
iteration consumes at least one byte. -/
def headerLoopF : Nat → List Nat → Nat → HLoopOut
  | _, [], _ => .diverge
  | 0, _ :: _, _ => .diverge
  | fuel + 1, b :: t, cl =>
    let p := readLine (b :: t)
    match utf8Decode p.1 with
    | none => .panic
    | some cps =>
      match clUpdate cps cl with
      | none => .panic
      | some cl2 =>
        if cps = [13, 10] then .ok p.1 cl2 p.2
        else
          match headerLoopF fuel p.2 cl2 with
          | .ok buf c r => .ok (p.1 ++ buf) c r
          | x => x

/-- The header loop at its exact fuel. -/
def headerLoop (s : List Nat) (cl : Nat) : HLoopOut := headerLoopF s.length s cl

/-- Outcome of `read_http` on a stream. -/
inductive ReadOutcome where
  | ok (msg : List Nat) (rest : List Nat)
  | panic
  | diverge
deriving DecidableEq, Repr

/-- Model of `fn read_http`: read one start line (decoded for logging since
`VERBOSE >= 1`, panicking on invalid UTF-8), run the header loop, then read
exactly `content_length` body bytes with `read_exact`, whose error is
discarded (`let _ = ...`), leaving the available bytes followed by the
buffer's zero initialization.  `.ok msg rest` returns the output buffer and
the unread remainder of the stream. -/
def read_http (s : List Nat) : ReadOutcome :=
  let p1 := readLine s
  if VERBOSE ≥ 1 && (utf8Decode p1.1).isNone then .panic
  else
    match headerLoop p1.2 0 with
    | .panic => .panic
    | .diverge => .diverge
    | .ok hbuf cl rest2 =>
      let body := rest2.take cl ++ List.replicate (cl - rest2.length) 0
      .ok (p1.1 ++ hbuf ++ body) (rest2.drop cl)

/-- Decomposition of a stream into the successive lines `read_until(b'\n')`
would deliver (fuel variant; fuel at least the stream length suffices). -/
def linesOfF : Nat → List Nat → List (List Nat)
  | _, [] => []
  | 0, _ :: _ => []
  | f + 1, b :: t => (readLine (b :: t)).1 :: linesOfF f (readLine (b :: t)).2

/-- All lines of a stream, in order. -/
def linesOf (s : List Nat) : List (List Nat) := linesOfF s.length s

/-- A complete line as delivered by `read_until(b'\n')` mid-stream: nonempty,
ends with the `'\n'` delimiter, and contains no earlier `'\n'`. -/
def lineOk : List Nat → Bool
  | [] => false
  | [b] => b == 10
  | b :: c :: t => b != 10 && lineOk (c :: t)

/-- A header line the loop of `read_http` processes without panicking:
it decodes as UTF-8 and its `Content-Length` handling (if any) succeeds.
(`clUpdate`'s success does not depend on the running value, so probing it
at `0` is representative.) -/
def lineProcessed (l : List Nat) : Bool :=
  match utf8Decode l with
  | none => false
  | some cps => (clUpdate cps 0).isSome

/-- The content length accumulated by processing a list of header lines in
order, starting from `cl`; `none` when some line panics the loop. -/
def clFold : List (List Nat) → Nat → Option Nat
  | [], c => some c
  | l :: ls, c =>
    match utf8Decode l with
    | none => none
    | some cps =>
      match clUpdate cps c with
      | none => none
      | some c2 => clFold ls c2

/-- One backend descriptor (`struct Host`). -/
structure Host where
  url : String
  healthy : Bool
deriving DecidableEq, Repr, Inhabited

/-- The inner `while failures < hosts.len()` selection loop of `load_balance`
(lines 112-127), written with the loop budget `hosts.length - failures` as the
recursion argument (the loop condition `failures < len` holds iff the budget
is positive, and each iteration increments `failures`, i.e. decrements the
budget).  Returns the final cursor, the final failure count, and the trace of
cursor values assigned, one per selection attempt. -/
def selectGo : Nat → List Host → Nat → Nat → Nat × Nat × List Nat
  | 0, _, idx, f => (idx, f, [])
  | b + 1, hosts, idx, f =>
    let idx2 := (idx + 1) % hosts.length
    if (hosts.getD idx2 default).healthy then (idx2, f, [idx2])
    else
      let r := selectGo b hosts idx2 (f + 1)
      (r.1, r.2.1, idx2 :: r.2.2)

/-- The selection loop entered with `failures = 0`, as `load_balance` does. -/
def selectLoopT (hosts : List Host) (idx : Nat) : Nat × Nat × List Nat :=
  selectGo hosts.length hosts idx 0

/-- Terminal outcome of one `load_balance` call. -/
inductive LBResult where
  | forwarded (url : String)
  | noHosts
deriving DecidableEq, Repr, Inhabited

/-- Observable record of one `load_balance` call: the outcome, the backend
connection attempts in order, the hosts actually sent request bytes, the trace
of all cursor assignments (`selectNext` calls), and the final registry
state. -/
structure LBRun where
  result : LBResult
  connects : List String
  forwards : List String
  selects : List Nat
  hosts : List Host
  idx : Nat
deriving DecidableEq, Repr, Inhabited

/-- The outer retry loop of `load_balance` (lines 109-152), with fuel.
`conn url` tells whether `TcpStream::connect(url)` succeeds during this
request.  Each failed connect marks the (healthy) candidate unhealthy, so the
healthy-host count strictly decreases: fuel `countP healthy + 1` is exact. -/
def loadBalanceF : Nat → (String → Bool) → List Host → Nat → LBRun
  | 0, _, hosts, idx => ⟨.noHosts, [], [], [], hosts, idx⟩
  | fuel + 1, conn, hosts, idx =>
    let s := selectLoopT hosts idx
    if hosts.length ≤ s.2.1 then ⟨.noHosts, [], [], s.2.2, hosts, s.1⟩
    else
      let cand := hosts.getD s.1 default
      if conn cand.url then
        ⟨.forwarded cand.url, [cand.url], [cand.url], s.2.2, hosts, s.1⟩
      else
        let hosts2 := hosts.set s.1 ⟨cand.url, false⟩
        let r := loadBalanceF fuel conn hosts2 s.1
        ⟨r.result, cand.url :: r.connects, r.forwards, s.2.2 ++ r.selects,
          r.hosts, r.idx⟩

/-- Model of `async fn load_balance`, given the connect oracle and the shared registry
state (host list and cursor) it locks for the whole call. -/
def load_balance (conn : String → Bool) (hosts : List Host) (idx : Nat) :
    LBRun :=
  loadBalanceF (hosts.countP (fun h => h.healthy) + 1) conn hosts idx

/-- A sequence of client requests handled back to back: each request's
`load_balance` sees the registry state the previous one left. -/
def iterLB : List (String → Bool) → List Host → Nat →
    List LBRun × List Host × Nat
  | [], hosts, idx => ([], hosts, idx)
  | c :: cs, hosts, idx =>
    let r := load_balance c hosts idx
    let rest := iterLB cs r.hosts r.idx
    (r :: rest.1, rest.2.1, rest.2.2)

/-- Model of `async fn initialize_hosts`: every host starts with `healthy: false`. -/
def initialize_hosts (urls : List String) : List Host :=
  urls.map (fun u => ⟨u, false⟩)

/-- A health log line emitted by `check_health`. -/
inductive HEvent where
  | healthyEv (url : String)
  | unhealthyEv (url : String)
deriving DecidableEq, Repr

/-- Model of `async fn check_health` (lines 181-196): for each host in order, store the
probe result in `healthy`, and (since `VERBOSE > 0`) print one log line per
host reporting the new state.  Returns the updated host list and the emitted
events. -/
def check_health (probe : String → Bool) : List Host → List Host × List HEvent
  | [] => ([], [])
  | h :: t =>
    let st := probe h.url
    let ev : List HEvent :=
      if VERBOSE > 0 then [if st then .healthyEv h.url else .unhealthyEv h.url]
      else []
    let rest := check_health probe t
    (⟨h.url, st⟩ :: rest.1, ev ++ rest.2)

/-- Registry states reachable from startup (`main` creates the registry with
`initialize_hosts` and cursor `0`, line 243) under any interleaving of
dispatcher calls and health cycles.  Both mutate the registry under its lock,
so the sequential step relation is faithful. -/
inductive Reach (urls : List String) : List Host → Nat → Prop where
  | init : Reach urls (initialize_hosts urls) 0
  | lb (conn : String → Bool) {hs : List Host} {i : Nat} :
      Reach urls hs i →
      Reach urls (load_balance conn hs i).hosts (load_balance conn hs i).idx
  | health (probe : String → Bool) {hs : List Host} {i : Nat} :
      Reach urls hs i → Reach urls (check_health probe hs).1 i

/-! ## Lemmas about the message framer -/

theorem readLine_cons (b : Nat) (r : List Nat) :
    readLine (b :: r) =
      if b = 10 then ([10], r) else (b :: (readLine r).1, (readLine r).2) := rfl

theorem readLine_rest_length (s : List Nat) (h : s ≠ []) :
    (readLine s).2.length < s.length := by
  induction s with
  | nil => exact absurd rfl h
  | cons b r ih =>
    rw [readLine_cons]
    by_cases hb : b = 10
    · simp [hb]
    · simp only [if_neg hb]
      rcases r with _ | ⟨c, t⟩
      · simp [readLine]
      · exact Nat.lt_succ_of_lt (ih (by simp))

theorem readLine_append (l : List Nat) (h : lineOk l = true) (r : List Nat) :
    readLine (l ++ r) = (l, r) := by
  induction l with
  | nil => simp [lineOk] at h
  | cons b t ih =>
    cases t with
    | nil =>
      simp only [lineOk, beq_iff_eq] at h
      subst h
      simp [readLine]
    | cons c t2 =>
      simp only [lineOk, Bool.and_eq_true, bne_iff_ne, ne_eq] at h
      rw [List.cons_append, readLine_cons, if_neg h.1, ih h.2]

theorem headerLoopF_nil (f c : Nat) : headerLoopF f [] c = .diverge := by
  cases f <;> rfl

theorem headerLoopF_fuel (f : Nat) :
    ∀ (g : Nat) (s : List Nat) (c : Nat), s.length ≤ f → s.length ≤ g →
      headerLoopF f s c = headerLoopF g s c := by
  induction f with
  | zero =>
    intro g s c hf _
    rw [List.length_eq_zero.mp (Nat.le_zero.mp hf)]
    rw [headerLoopF_nil, headerLoopF_nil]
  | succ f ih =>
    intro g s c hf hg
    rcases s with _ | ⟨b, t⟩
    · rw [headerLoopF_nil, headerLoopF_nil]
    · rcases g with _ | g
      · exact absurd hg (by simp)
      · have hrest : (readLine (b :: t)).2.length < t.length + 1 :=
          readLine_rest_length (b :: t) (by simp)
        have hf2 : (readLine (b :: t)).2.length ≤ f := by
          simp only [List.length_cons] at hf
          omega
        have hg2 : (readLine (b :: t)).2.length ≤ g := by
          simp only [List.length_cons] at hg
          omega
        have key : ∀ c2, headerLoopF f (readLine (b :: t)).2 c2 =
            headerLoopF g (readLine (b :: t)).2 c2 :=
          fun c2 => ih g (readLine (b :: t)).2 c2 hf2 hg2
        simp only [headerLoopF, key]

theorem headerLoop_cons (b : Nat) (t : List Nat) (c : Nat) :
    headerLoop (b :: t) c =
      (match utf8Decode (readLine (b :: t)).1 with
       | none => .panic
       | some cps =>
         match clUpdate cps c with
         | none => .panic
         | some c2 =>
           if cps = [13, 10] then .ok (readLine (b :: t)).1 c2 (readLine (b :: t)).2
           else
             match headerLoop (readLine (b :: t)).2 c2 with
             | .ok buf cc r => .ok ((readLine (b :: t)).1 ++ buf) cc r
             | x => x) := by
  have hrest : (readLine (b :: t)).2.length < t.length + 1 :=
    readLine_rest_length (b :: t) (by simp)
  have key : ∀ c2, headerLoopF t.length (readLine (b :: t)).2 c2 =
      headerLoop (readLine (b :: t)).2 c2 :=
    fun c2 => headerLoopF_fuel t.length (readLine (b :: t)).2.length
      (readLine (b :: t)).2 c2 (by omega) le_rfl
  show headerLoopF (t.length + 1) (b :: t) c = _
  simp only [headerLoopF, key]

theorem headerLoop_blocks (hs : List (List Nat)) :
    ∀ (t : List Nat) (c c2 : Nat),
      (∀ l ∈ hs, lineOk l = true ∧ utf8Decode l ≠ some [13, 10]) →
      clFold hs c = some c2 →
      headerLoop (hs.flatten ++ t) c =
        match headerLoop t c2 with
        | .ok buf cc r => .ok (hs.flatten ++ buf) cc r
        | x => x := by
  induction hs with
  | nil =>
    intro t c c2 _ hcl
    simp only [clFold, Option.some.injEq] at hcl
    subst hcl
    cases h : headerLoop t c <;> simp [h]
  | cons l ls ih =>
    intro t c c2 hok hcl
    obtain ⟨hl, hls⟩ := List.forall_mem_cons.mp hok
    simp only [clFold] at hcl
    rcases hdec : utf8Decode l with _ | cps
    · rw [hdec] at hcl
      simp at hcl
    rw [hdec] at hcl
    simp only [] at hcl
    rcases hupd : clUpdate cps c with _ | cmid
    · rw [hupd] at hcl
      simp at hcl
    rw [hupd] at hcl
    simp only [] at hcl
    rcases l with _ | ⟨lb, lt⟩
    · simp [lineOk] at hl
    have hread : readLine ((lb :: lt) ++ (ls.flatten ++ t)) = (lb :: lt, ls.flatten ++ t) :=
      readLine_append _ hl.1 _
    have hcps : cps ≠ [13, 10] := by
      intro hh
      exact hl.2 (by rw [hdec, hh])
    have hflat : ((lb :: lt) :: ls).flatten = (lb :: lt) ++ ls.flatten := rfl
    rw [hflat, List.append_assoc]
    simp only [List.cons_append] at hread ⊢
    rw [headerLoop_cons, hread]
    simp only [hdec, hupd, if_neg hcps]
    rw [ih t cmid c2 hls hcl]
    cases headerLoop t c2 <;> simp [List.append_assoc]

theorem clUpdate_crlf (c : Nat) : clUpdate [13, 10] c = some c := rfl

theorem headerLoop_crlf (z : List Nat) (c : Nat) :
    headerLoop (13 :: 10 :: z) c = .ok [13, 10] c z := by
  rw [headerLoop_cons]
  have hr : readLine (13 :: 10 :: z) = ([13, 10], z) := by
    rw [readLine_cons, if_neg (by norm_num), readLine_cons, if_pos rfl]
  rw [hr]
  have hd : utf8Decode [13, 10] = some [13, 10] := by decide
  simp [hd, clUpdate_crlf]

theorem read_http_split (l1 X : List Nat) (h1 : lineOk l1 = true)
    (h1d : (utf8Decode l1).isSome = true) :
    read_http (l1 ++ X) =
      match headerLoop X 0 with
      | .panic => .panic
      | .diverge => .diverge
      | .ok hbuf cl rest2 =>
        .ok (l1 ++ hbuf ++ (rest2.take cl ++ List.replicate (cl - rest2.length) 0))
          (rest2.drop cl) := by
  obtain ⟨cps, hcps⟩ := Option.isSome_iff_exists.mp h1d
  simp only [read_http, readLine_append l1 h1 X, hcps, Option.isNone_some,
    Bool.and_false, Bool.false_eq_true, if_false]

/-- Running `read_http` on a complete, well-formed message: the output is the exact
byte concatenation of start line, header lines (terminator included) and
exactly `cl` body bytes, and nothing further is consumed. -/
theorem read_http_ok_exact (l1 : List Nat) (hs : List (List Nat)) (cl : Nat)
    (body rest : List Nat)
    (h1 : lineOk l1 = true) (h1d : (utf8Decode l1).isSome = true)
    (hhs : ∀ l ∈ hs, lineOk l = true ∧ utf8Decode l ≠ some [13, 10])
    (hcl : clFold hs 0 = some cl)
    (hbody : body.length = cl) :
    read_http (l1 ++ (hs.flatten ++ ([13, 10] ++ (body ++ rest)))) =
      .ok (l1 ++ (hs.flatten ++ ([13, 10] ++ body))) rest := by
  rw [read_http_split _ _ h1 h1d,
    headerLoop_blocks hs ([13, 10] ++ (body ++ rest)) 0 cl hhs hcl]
  have hterm : headerLoop ([13, 10] ++ (body ++ rest)) cl =
      .ok [13, 10] cl (body ++ rest) := headerLoop_crlf _ _
  rw [hterm]
  subst hbody
  have htake : (body ++ rest).take body.length = body := List.take_left body rest
  have hdrop : (body ++ rest).drop body.length = rest := List.drop_left body rest
  have hrep : body.length - (body ++ rest).length = 0 := by
    simp only [List.length_append]
    omega
  simp only [htake, hdrop, hrep, List.replicate_zero, List.append_nil,
    List.append_assoc]

/-- Running `read_http` on a message whose stream closes before the declared body
length is reached: the `read_exact` error is discarded and the framer returns
the available body bytes padded with the buffer's zero fill. -/
theorem read_http_truncated (l1 : List Nat) (hs : List (List Nat)) (cl : Nat)
    (body : List Nat)
    (h1 : lineOk l1 = true) (h1d : (utf8Decode l1).isSome = true)
    (hhs : ∀ l ∈ hs, lineOk l = true ∧ utf8Decode l ≠ some [13, 10])
    (hcl : clFold hs 0 = some cl)
    (hbody : body.length < cl) :
    read_http (l1 ++ (hs.flatten ++ ([13, 10] ++ body))) =
      .ok (l1 ++ (hs.flatten ++ ([13, 10] ++
        (body ++ List.replicate (cl - body.length) 0)))) [] := by
  rw [read_http_split _ _ h1 h1d,
    headerLoop_blocks hs ([13, 10] ++ body) 0 cl hhs hcl]
  have hterm : headerLoop ([13, 10] ++ body) cl = .ok [13, 10] cl body :=
    headerLoop_crlf body cl
  rw [hterm]
  have htake : body.take cl = body := List.take_of_length_le (Nat.le_of_lt hbody)
  have hdrop : body.drop cl = [] := List.drop_eq_nil_of_le (Nat.le_of_lt hbody)
  simp only [htake, hdrop, List.append_assoc]

theorem clFold_append (hs1 hs2 : List (List Nat)) (c : Nat) :
    clFold (hs1 ++ hs2) c =
      match clFold hs1 c with
      | none => none
      | some c1 => clFold hs2 c1 := by
  induction hs1 generalizing c with
  | nil => simp [clFold]
  | cons l ls ih =>
    simp only [List.cons_append, clFold]
    cases utf8Decode l with
    | none => simp
    | some cps =>
      rcases hu : clUpdate cps c with _ | c2
      · simp [hu]
      · simp [hu, ih c2]

/-- When a decoded header line splits as `"Content-Length" :: v :: _`, the
loop body sets the content length to the parse of the whitespace-stripped
`v` — the segment between the first and second `": "` — regardless of the
previous value (so a repeated header's last occurrence wins). -/
theorem clUpdate_cl_line (cps v : List Nat) (parts : List (List Nat)) (c : Nat)
    (hsplit : splitHeader cps = contentLengthCps :: v :: parts) :
    clUpdate cps c = parseUsize (strip v) := by
  simp [clUpdate, hsplit]

/-- Appending a `Content-Length` header line to any successfully processed
header list overrides whatever value came before. -/
theorem clFold_last_wins (hs : List (List Nat)) (l cps v : List Nat)
    (parts : List (List Nat)) (c c0 : Nat)
    (hprev : clFold hs c = some c0)
    (hdec : utf8Decode l = some cps)
    (hsplit : splitHeader cps = contentLengthCps :: v :: parts) :
    clFold (hs ++ [l]) c = parseUsize (strip v) := by
  rw [clFold_append, hprev]
  simp only [clFold, hdec, clUpdate_cl_line cps v parts c0 hsplit]
  cases parseUsize (strip v) <;> rfl

/-- An unparseable `Content-Length` value panics `read_http`: no default is
substituted and no message is returned. -/
theorem read_http_bad_cl_panics (l1 : List Nat) (hs : List (List Nat))
    (l cps v : List Nat) (parts : List (List Nat)) (z : List Nat) (c0 : Nat)
    (h1 : lineOk l1 = true) (h1d : (utf8Decode l1).isSome = true)
    (hhs : ∀ m ∈ hs, lineOk m = true ∧ utf8Decode m ≠ some [13, 10])
    (hcl : clFold hs 0 = some c0)
    (hl : lineOk l = true)
    (hdec : utf8Decode l = some cps)
    (hsplit : splitHeader cps = contentLengthCps :: v :: parts)
    (hbad : parseUsize (strip v) = none) :
    read_http (l1 ++ (hs.flatten ++ (l ++ z))) = .panic := by
  rw [read_http_split _ _ h1 h1d, headerLoop_blocks hs (l ++ z) 0 c0 hhs hcl]
  rcases l with _ | ⟨lb, lt⟩
  · simp [lineOk] at hl
  have hread : readLine ((lb :: lt) ++ z) = (lb :: lt, z) := readLine_append _ hl z
  have hloop : headerLoop ((lb :: lt) ++ z) c0 = .panic := by
    simp only [List.cons_append] at hread ⊢
    rw [headerLoop_cons, hread]
    simp only [hdec, clUpdate_cl_line cps v parts c0 hsplit, hbad]
  simp only [List.cons_append] at hloop ⊢
  rw [hloop]

theorem linesOfF_nil (f : Nat) : linesOfF f [] = [] := by
  cases f <;> rfl

theorem clUpdate_isSome_indep (cps : List Nat) (c : Nat) :
    (clUpdate cps c).isSome = (clUpdate cps 0).isSome := by
  unfold clUpdate
  by_cases h : (splitHeader cps).headD [] = contentLengthCps
  · rw [if_pos h, if_pos h]
  · rw [if_neg h, if_neg h]
    rfl

theorem headerLoopF_diverge_iff (f : Nat) :
    ∀ (s : List Nat) (c : Nat), s.length ≤ f →
      (headerLoopF f s c = .diverge ↔
        ∀ l ∈ linesOfF f s, lineProcessed l = true ∧ utf8Decode l ≠ some [13, 10]) := by
  induction f with
  | zero =>
    intro s c hf
    rw [List.length_eq_zero.mp (Nat.le_zero.mp hf)]
    simp [headerLoopF_nil, linesOfF_nil]
  | succ f ih =>
    intro s c hf
    rcases s with _ | ⟨b, t⟩
    · simp [headerLoopF_nil, linesOfF_nil]
    have hrest : (readLine (b :: t)).2.length ≤ f := by
      have := readLine_rest_length (b :: t) (by simp)
      simp only [List.length_cons] at hf this
      omega
    simp only [headerLoopF, linesOfF, List.forall_mem_cons]
    rcases hdec : utf8Decode (readLine (b :: t)).1 with _ | cps
    · simp [hdec, lineProcessed]
    rcases hupd : clUpdate cps c with _ | c2
    · have h0 : (clUpdate cps 0).isSome = false := by
        rw [← clUpdate_isSome_indep cps c, hupd]
        rfl
      simp [hdec, hupd, lineProcessed, h0]
    by_cases hcrlf : cps = [13, 10]
    · subst hcrlf
      simp [hdec, hupd]
    have h0 : (clUpdate cps 0).isSome = true := by
      rw [← clUpdate_isSome_indep cps c, hupd]
      rfl
    have hmatch :
        ((match headerLoopF f (readLine (b :: t)).2 c2 with
          | .ok buf cc r => HLoopOut.ok ((readLine (b :: t)).1 ++ buf) cc r
          | x => x) = .diverge) ↔
          headerLoopF f (readLine (b :: t)).2 c2 = .diverge := by
      cases headerLoopF f (readLine (b :: t)).2 c2 <;> simp
    simp only [hdec, hupd, if_neg hcrlf]
    rw [hmatch, ih (readLine (b :: t)).2 c2 hrest]
    simp [lineProcessed, hdec, h0, hcrlf]

theorem headerLoopF_ok_crlf (f : Nat) :
    ∀ (s : List Nat) (c : Nat) (buf : List Nat) (c2 : Nat) (r : List Nat),
      s.length ≤ f → headerLoopF f s c = .ok buf c2 r →
      ∃ l ∈ linesOfF f s, utf8Decode l = some [13, 10] := by
  induction f with
  | zero =>
    intro s c buf c2 r hf hok
    rw [List.length_eq_zero.mp (Nat.le_zero.mp hf)] at hok
    rw [headerLoopF_nil] at hok
    exact absurd hok (by simp)
  | succ f ih =>
    intro s c buf c2 r hf hok
    rcases s with _ | ⟨b, t⟩
    · rw [headerLoopF_nil] at hok
      exact absurd hok (by simp)
    have hrest : (readLine (b :: t)).2.length ≤ f := by
      have := readLine_rest_length (b :: t) (by simp)
      simp only [List.length_cons] at hf this
      omega
    simp only [headerLoopF] at hok
    rcases hdec : utf8Decode (readLine (b :: t)).1 with _ | cps
    · simp [hdec] at hok
    rcases hupd : clUpdate cps c with _ | cc
    · simp [hdec, hupd] at hok
    by_cases hcrlf : cps = [13, 10]
    · subst hcrlf
      refine ⟨(readLine (b :: t)).1, ?_, hdec⟩
      simp [linesOfF]
    simp only [hdec, hupd, if_neg hcrlf] at hok
    rcases hin : headerLoopF f (readLine (b :: t)).2 cc with ⟨buf2, cc2, r2⟩ | _ | _
    · obtain ⟨l, hmem, hl⟩ := ih (readLine (b :: t)).2 cc buf2 cc2 r2 hrest hin
      refine ⟨l, ?_, hl⟩
      simp only [linesOfF, List.mem_cons]
      exact Or.inr hmem
    · simp [hin] at hok
    · simp [hin] at hok

/-- The framer `read_http` spins forever exactly when the start line decodes (else it
panics first) and the header section reaches end of input with every line
decodable, every `Content-Length` parseable, and no line equal to the bare
CRLF terminator. -/
theorem read_http_diverge_iff (s : List Nat) :
    read_http s = .diverge ↔
      ((utf8Decode (readLine s).1).isSome = true ∧
        ∀ l ∈ linesOf (readLine s).2,
          lineProcessed l = true ∧ utf8Decode l ≠ some [13, 10]) := by
  have key : (headerLoop (readLine s).2 0 = .diverge) ↔
      ∀ l ∈ linesOf (readLine s).2,
        lineProcessed l = true ∧ utf8Decode l ≠ some [13, 10] :=
    headerLoopF_diverge_iff (readLine s).2.length (readLine s).2 0 le_rfl
  rcases hdec : utf8Decode (readLine s).1 with _ | cps
  · simp [read_http, hdec, VERBOSE]
  have hred : read_http s =
      (match headerLoop (readLine s).2 0 with
       | HLoopOut.panic => ReadOutcome.panic
       | HLoopOut.diverge => ReadOutcome.diverge
       | HLoopOut.ok hbuf cl rest2 =>
         ReadOutcome.ok ((readLine s).1 ++ hbuf ++
             (rest2.take cl ++ List.replicate (cl - rest2.length) 0))
           (rest2.drop cl)) := by
    simp [read_http, hdec, VERBOSE]
  rw [hred]
  have hsome : (utf8Decode (readLine s).1).isSome = true := by
    rw [hdec]
    rfl
  rcases hloop : headerLoop (readLine s).2 0 with ⟨buf, cl, r2⟩ | _ | _
  · rw [hloop] at key
    simp only [hloop]
    constructor
    · intro hcontra
      exact absurd hcontra (by simp)
    · rintro ⟨-, hr⟩
      exact absurd (key.mpr hr) (by simp)
  · rw [hloop] at key
    simp only [hloop]
    constructor
    · intro hcontra
      exact absurd hcontra (by simp)
    · rintro ⟨-, hr⟩
      exact absurd (key.mpr hr) (by simp)
  · rw [hloop] at key
    simp only [hloop]
    constructor
    · intro _
      exact ⟨by rfl, key.mp rfl⟩
    · intro _
      trivial

/-- The framer `read_http` returns a message only when some header line decodes to the
bare CRLF terminator. -/
theorem read_http_ok_crlf (s m r : List Nat) (h : read_http s = .ok m r) :
    ∃ l ∈ linesOf (readLine s).2, utf8Decode l = some [13, 10] := by
  simp only [read_http] at h
  rcases hdec : utf8Decode (readLine s).1 with _ | cps
  · simp [hdec, VERBOSE] at h
  rcases hloop : headerLoop (readLine s).2 0 with ⟨buf, cl, r2⟩ | _ | _
  · exact headerLoopF_ok_crlf (readLine s).2.length (readLine s).2 0 buf cl r2
      le_rfl hloop
  · simp [hdec, hloop, VERBOSE] at h
  · simp [hdec, hloop, VERBOSE] at h

/-! ## Lemmas about host selection and the dispatcher -/

theorem getD_healthy_of_all (hosts : List Host) (i : Nat) (v : Bool)
    (hall : ∀ h ∈ hosts, h.healthy = v) :
    (hosts.getD i default).healthy = v ∨ hosts.getD i default = default := by
  rw [List.getD_eq_getElem?_getD]
  rcases h : hosts[i]? with _ | x
  · exact Or.inr rfl
  · exact Or.inl (hall x (List.getElem?_mem h))

theorem getD_healthy_false_of_all (hosts : List Host) (i : Nat)
    (hall : ∀ h ∈ hosts, h.healthy = false) :
    (hosts.getD i default).healthy = false := by
  rcases getD_healthy_of_all hosts i false hall with h | h
  · exact h
  · rw [h]
    rfl

theorem getD_healthy_true_of_all (hosts : List Host) (i : Nat)
    (hi : i < hosts.length) (hall : ∀ h ∈ hosts, h.healthy = true) :
    (hosts.getD i default).healthy = true := by
  rw [List.getD_eq_getElem?_getD]
  rw [List.getElem?_eq_getElem hi]
  exact hall _ (List.getElem_mem hi)

theorem selectGo_idx_lt (b : Nat) :
    ∀ (hosts : List Host) (idx f : Nat), 0 < hosts.length → 0 < b →
      (selectGo b hosts idx f).1 < hosts.length := by
  induction b with
  | zero =>
    intro _ _ _ _ h0
    omega
  | succ b ih =>
    intro hosts idx f hn _
    simp only [selectGo]
    by_cases hh : (hosts.getD ((idx + 1) % hosts.length) default).healthy = true
    · rw [if_pos hh]
      exact Nat.mod_lt _ hn
    · rw [if_neg hh]
      cases b with
      | zero => simpa [selectGo] using Nat.mod_lt (idx + 1) hn
      | succ b2 => exact ih hosts ((idx + 1) % hosts.length) (f + 1) hn (by omega)

theorem selectGo_fails_dichotomy (b : Nat) :
    ∀ (hosts : List Host) (idx f : Nat),
      (selectGo b hosts idx f).2.1 = f + b ∨
      ((selectGo b hosts idx f).2.1 < f + b ∧
        (hosts.getD (selectGo b hosts idx f).1 default).healthy = true) := by
  induction b with
  | zero =>
    intro hosts idx f
    exact Or.inl rfl
  | succ b ih =>
    intro hosts idx f
    simp only [selectGo]
    by_cases hh : (hosts.getD ((idx + 1) % hosts.length) default).healthy = true
    · rw [if_pos hh]
      refine Or.inr ⟨?_, ?_⟩
      · show f < f + (b + 1)
        omega
      · show (hosts.getD ((idx + 1) % hosts.length) default).healthy = true
        exact hh
    · rw [if_neg hh]
      rcases ih hosts ((idx + 1) % hosts.length) (f + 1) with h | ⟨h1, h2⟩
      · refine Or.inl ?_
        show (selectGo b hosts ((idx + 1) % hosts.length) (f + 1)).2.1 = f + (b + 1)
        omega
      · refine Or.inr ⟨?_, ?_⟩
        · show (selectGo b hosts ((idx + 1) % hosts.length) (f + 1)).2.1 < f + (b + 1)
          omega
        · show (hosts.getD
              (selectGo b hosts ((idx + 1) % hosts.length) (f + 1)).1
              default).healthy = true
          exact h2

theorem selectGo_trace (b : Nat) :
    ∀ (hosts : List Host) (idx f m : Nat),
      m < (selectGo b hosts idx f).2.2.length →
      (selectGo b hosts idx f).2.2.getD m 0 = (idx + 1 + m) % hosts.length := by
  induction b with
  | zero =>
    intro hosts idx f m hm
    simp [selectGo] at hm
  | succ b ih =>
    intro hosts idx f m hm
    simp only [selectGo] at hm ⊢
    by_cases hh : (hosts.getD ((idx + 1) % hosts.length) default).healthy = true
    · rw [if_pos hh] at hm ⊢
      have hm0 : m = 0 := by
        simp at hm
        omega
      subst hm0
      simp
    · rw [if_neg hh] at hm ⊢
      cases m with
      | zero => simp
      | succ m2 =>
        have hlen : m2 < (selectGo b hosts ((idx + 1) % hosts.length) (f + 1)).2.2.length := by
          simpa using hm
        have := ih hosts ((idx + 1) % hosts.length) (f + 1) m2 hlen
        simp only [List.getD_cons_succ, this]
        rw [Nat.add_assoc, Nat.mod_add_mod]
        congr 1
        omega

theorem selectGo_all_unhealthy (b : Nat) :
    ∀ (hosts : List Host) (idx f : Nat),
      (∀ h ∈ hosts, h.healthy = false) →
      selectGo b hosts idx f =
        ((if b = 0 then idx else (idx + b) % hosts.length), f + b,
          (List.range b).map (fun m => (idx + 1 + m) % hosts.length)) := by
  induction b with
  | zero =>
    intro hosts idx f _
    simp [selectGo]
  | succ b ih =>
    intro hosts idx f hall
    have hh : ¬ (hosts.getD ((idx + 1) % hosts.length) default).healthy = true := by
      rw [getD_healthy_false_of_all hosts _ hall]
      exact Bool.false_ne_true
    simp only [selectGo]
    rw [if_neg hh]
    rw [ih hosts ((idx + 1) % hosts.length) (f + 1) hall]
    refine Prod.ext ?_ (Prod.ext ?_ ?_)
    · simp only []
      cases b with
      | zero => simp
      | succ b2 =>
        simp only [Nat.succ_ne_zero, if_false]
        rw [Nat.mod_add_mod]
        congr 1
        omega
    · simp only []
      omega
    · simp only []
      rw [List.range_succ_eq_map, List.map_cons, List.map_map]
      congr 1
      refine List.map_congr_left ?_
      intro m _
      simp only [Function.comp]
      rw [Nat.add_assoc, Nat.mod_add_mod]
      congr 1
      omega

theorem selectGo_found (b : Nat) :
    ∀ (hosts : List Host) (idx f : Nat),
      (∃ m, m < b ∧
        (hosts.getD ((idx + 1 + m) % hosts.length) default).healthy = true) →
      (selectGo b hosts idx f).2.1 < f + b := by
  induction b with
  | zero =>
    intro hosts idx f ⟨m, hm, _⟩
    omega
  | succ b ih =>
    intro hosts idx f ⟨m, hm, hhm⟩
    simp only [selectGo]
    by_cases hh : (hosts.getD ((idx + 1) % hosts.length) default).healthy = true
    · rw [if_pos hh]
      show f < f + (b + 1)
      omega
    · rw [if_neg hh]
      cases m with
      | zero =>
        rw [Nat.add_zero] at hhm
        exact absurd hhm hh
      | succ m2 =>
        have hpos : ((idx + 1) % hosts.length + 1 + m2) % hosts.length =
            (idx + 1 + (m2 + 1)) % hosts.length := by
          rw [Nat.add_assoc, Nat.mod_add_mod]
          congr 1
          omega
        have := ih hosts ((idx + 1) % hosts.length) (f + 1)
          ⟨m2, by omega, by rw [hpos]; exact hhm⟩
        show (selectGo b hosts ((idx + 1) % hosts.length) (f + 1)).2.1 < f + (b + 1)
        omega


theorem countP_set_unhealthy (hosts : List Host) :
    ∀ (k : Nat), k < hosts.length →
      (hosts.getD k default).healthy = true →
      ∀ u, (hosts.set k ⟨u, false⟩).countP (fun h => h.healthy) + 1 =
        hosts.countP (fun h => h.healthy) := by
  induction hosts with
  | nil =>
    intro k hk
    simp at hk
  | cons h t ih =>
    intro k hk hh u
    cases k with
    | zero =>
      rw [List.getD_cons_zero] at hh
      simp [List.countP_cons, hh]
    | succ k2 =>
      rw [List.getD_cons_succ] at hh
      have := ih k2 (by simpa using hk) hh u
      simp only [List.set_cons_succ, List.countP_cons]
      omega

theorem selectLoopT_first_healthy (hosts : List Host) (idx : Nat)
    (hn : 0 < hosts.length)
    (hh : (hosts.getD ((idx + 1) % hosts.length) default).healthy = true) :
    selectLoopT hosts idx =
      ((idx + 1) % hosts.length, 0, [(idx + 1) % hosts.length]) := by
  obtain ⟨b, hb⟩ : ∃ b, hosts.length = b + 1 := ⟨hosts.length - 1, by omega⟩
  unfold selectLoopT
  rw [hb]
  simp only [selectGo]
  rw [if_pos hh, hb]

/-- Unfolding `load_balance` when the selection pass exhausts all hosts:
no connection is opened, nothing is forwarded, the outcome is `noHosts`. -/
theorem load_balance_noHosts (conn : String → Bool) (hosts : List Host)
    (idx k f : Nat) (tr : List Nat)
    (hsel : selectLoopT hosts idx = (k, f, tr)) (hf : hosts.length ≤ f) :
    load_balance conn hosts idx = ⟨.noHosts, [], [], tr, hosts, k⟩ := by
  unfold load_balance loadBalanceF
  rw [hsel]
  simp only []
  rw [if_pos hf]

/-- Unfolding `load_balance` when the selected candidate accepts the
connection: the request is forwarded to it and the call ends. -/
theorem load_balance_forwarded (conn : String → Bool) (hosts : List Host)
    (idx k f : Nat) (tr : List Nat)
    (hsel : selectLoopT hosts idx = (k, f, tr)) (hf : f < hosts.length)
    (hc : conn ((hosts.getD k default).url) = true) :
    load_balance conn hosts idx =
      ⟨.forwarded ((hosts.getD k default).url), [(hosts.getD k default).url],
        [(hosts.getD k default).url], tr, hosts, k⟩ := by
  unfold load_balance loadBalanceF
  rw [hsel]
  simp only []
  rw [if_neg (by omega), if_pos hc]

/-- Unfolding `load_balance` when the selected candidate refuses the
connection: exactly that candidate is marked unhealthy and the call
continues as a fresh `load_balance` from the candidate's cursor position
(the cursor is not reset), with the attempt recorded. -/
theorem load_balance_retry (conn : String → Bool) (hosts : List Host)
    (idx k f : Nat) (tr : List Nat)
    (hsel : selectLoopT hosts idx = (k, f, tr)) (hf : f < hosts.length)
    (hc : conn ((hosts.getD k default).url) = false) :
    load_balance conn hosts idx =
      { result := (load_balance conn
          (hosts.set k ⟨(hosts.getD k default).url, false⟩) k).result
        connects := (hosts.getD k default).url ::
          (load_balance conn
            (hosts.set k ⟨(hosts.getD k default).url, false⟩) k).connects
        forwards := (load_balance conn
          (hosts.set k ⟨(hosts.getD k default).url, false⟩) k).forwards
        selects := tr ++ (load_balance conn
          (hosts.set k ⟨(hosts.getD k default).url, false⟩) k).selects
        hosts := (load_balance conn
          (hosts.set k ⟨(hosts.getD k default).url, false⟩) k).hosts
        idx := (load_balance conn
          (hosts.set k ⟨(hosts.getD k default).url, false⟩) k).idx } := by
  have hn : 0 < hosts.length := by omega
  have hk : k < hosts.length := by
    have h0 := selectGo_idx_lt hosts.length hosts idx 0 hn hn
    have h1 : selectGo hosts.length hosts idx 0 = (k, f, tr) := hsel
    rw [h1] at h0
    exact h0
  have hheal : (hosts.getD k default).healthy = true := by
    rcases selectGo_fails_dichotomy hosts.length hosts idx 0 with h | ⟨h1, h2⟩
    · have h3 : selectGo hosts.length hosts idx 0 = (k, f, tr) := hsel
      rw [h3] at h
      simp at h
      omega
    · have h3 : selectGo hosts.length hosts idx 0 = (k, f, tr) := hsel
      rw [h3] at h2
      exact h2
  have hcount := countP_set_unhealthy hosts k hk hheal ((hosts.getD k default).url)
  have hc2 : conn (hosts[k]?.getD default).url = false := by
    rw [← List.getD_eq_getElem?_getD]
    exact hc
  unfold load_balance loadBalanceF
  rw [hsel]
  simp only []
  rw [if_neg (by omega)]
  rw [if_neg (by simp [hc2])]
  rw [show hosts.countP (fun h => h.healthy) =
      ((hosts.set k ⟨(hosts.getD k default).url, false⟩).countP
        (fun h => h.healthy)) + 1 from hcount.symm]
  rfl


/-- With every host unhealthy, the selection pass makes exactly
`hosts.length` attempts, finds nothing, and `load_balance` ends in `noHosts`
without opening a connection or forwarding anything. -/
theorem load_balance_all_unhealthy (conn : String → Bool) (hosts : List Host)
    (idx : Nat) (hall : ∀ h ∈ hosts, h.healthy = false) :
    load_balance conn hosts idx =
      ⟨.noHosts, [], [],
        (List.range hosts.length).map (fun m => (idx + 1 + m) % hosts.length),
        hosts,
        if hosts.length = 0 then idx
        else (idx + hosts.length) % hosts.length⟩ := by
  have hsel := selectGo_all_unhealthy hosts.length hosts idx 0 hall
  exact load_balance_noHosts conn hosts idx _ _ _ hsel (by omega)

theorem load_balance_all_unhealthy_zero (conn : String → Bool)
    (hosts : List Host) (hall : ∀ h ∈ hosts, h.healthy = false) :
    load_balance conn hosts 0 =
      ⟨.noHosts, [], [],
        (List.range hosts.length).map (fun m => (0 + 1 + m) % hosts.length),
        hosts, 0⟩ := by
  rw [load_balance_all_unhealthy conn hosts 0 hall]
  by_cases hz : hosts.length = 0
  · simp [hz]
  · simp [hz, Nat.mod_self]

theorem iterLB_all_unhealthy (conns : List (String → Bool)) (hosts : List Host)
    (hall : ∀ h ∈ hosts, h.healthy = false) :
    ∀ r ∈ (iterLB conns hosts 0).1,
      r.result = .noHosts ∧ r.forwards = [] ∧ r.connects = [] := by
  induction conns with
  | nil =>
    intro r hr
    simp [iterLB] at hr
  | cons c cs ih =>
    intro r hr
    simp only [iterLB, List.mem_cons] at hr
    rcases hr with hr | hr
    · subst hr
      rw [load_balance_all_unhealthy_zero c hosts hall]
      exact ⟨rfl, rfl, rfl⟩
    · rw [load_balance_all_unhealthy_zero c hosts hall] at hr
      exact ih r hr

/-- With every host healthy and a working backend, one `load_balance` call
advances the cursor by exactly one step and forwards to the host there. -/
theorem load_balance_all_healthy (conn : String → Bool) (hosts : List Host)
    (idx : Nat) (hall : ∀ h ∈ hosts, h.healthy = true) (hn : 0 < hosts.length)
    (hc : conn ((hosts.getD ((idx + 1) % hosts.length) default).url) = true) :
    load_balance conn hosts idx =
      ⟨.forwarded ((hosts.getD ((idx + 1) % hosts.length) default).url),
        [(hosts.getD ((idx + 1) % hosts.length) default).url],
        [(hosts.getD ((idx + 1) % hosts.length) default).url],
        [(idx + 1) % hosts.length], hosts, (idx + 1) % hosts.length⟩ := by
  have hh := getD_healthy_true_of_all hosts ((idx + 1) % hosts.length)
    (Nat.mod_lt (idx + 1) hn) hall
  have hsel := selectLoopT_first_healthy hosts idx hn hh
  exact load_balance_forwarded conn hosts idx _ 0 _ hsel hn hc

theorem iterLB_all_healthy (M : Nat) :
    ∀ (hosts : List Host) (c : Nat),
      (∀ h ∈ hosts, h.healthy = true) → 0 < hosts.length →
      (iterLB (List.replicate M (fun _ => true)) hosts c).1.map
          (fun r => r.result) =
        (List.range M).map
          (fun i => LBResult.forwarded
            ((hosts.getD ((c + 1 + i) % hosts.length) default).url)) := by
  induction M with
  | zero =>
    intro hosts c _ _
    simp [iterLB]
  | succ M ih =>
    intro hosts c hall hn
    rw [List.replicate_succ]
    simp only [iterLB]
    rw [load_balance_all_healthy (fun _ => true) hosts c hall hn rfl]
    simp only [List.map_cons]
    rw [List.range_succ_eq_map, List.map_cons]
    refine congrArg₂ List.cons rfl ?_
    rw [ih hosts ((c + 1) % hosts.length) hall hn, List.map_map]
    refine List.map_congr_left ?_
    intro m _
    simp only [Function.comp]
    congr 2
    rw [Nat.add_assoc, Nat.mod_add_mod,
      show c + 1 + (1 + m) = c + 1 + m.succ by omega]


/-! ## Counting how often the rotation hits each registry slot -/

theorem count_res_succ (a N j M : Nat) :
    ((Finset.range (M + 1)).filter (fun i => (a + i) % N = j)).card =
      ((Finset.range M).filter (fun i => (a + i) % N = j)).card +
        (if (a + M) % N = j then 1 else 0) := by
  rw [Finset.range_succ, Finset.filter_insert]
  by_cases h : (a + M) % N = j
  · rw [if_pos h, if_pos h, Finset.card_insert_of_not_mem (by simp)]
  · rw [if_neg h, if_neg h, Nat.add_zero]

theorem count_res_unique (a N j : Nat) (hN : 0 < N) (i1 i2 : Nat)
    (h1 : i1 < N) (h2 : i2 < N)
    (e1 : (a + i1) % N = j) (e2 : (a + i2) % N = j) : i1 = i2 := by
  have hmod : (a + i1) % N = (a + i2) % N := by rw [e1, e2]
  have hcan : i1 % N = i2 % N := Nat.ModEq.add_left_cancel' a hmod
  rwa [Nat.mod_eq_of_lt h1, Nat.mod_eq_of_lt h2] at hcan

theorem count_res_window (a N j : Nat) (hN : 0 < N) (hj : j < N) :
    ((Finset.range N).filter (fun i => (a + i) % N = j)).card = 1 := by
  have haN : a % N < N := Nat.mod_lt a hN
  have hex : ∃ i, i < N ∧ (a + i) % N = j := by
    by_cases hle : a % N ≤ j
    · refine ⟨j - a % N, by omega, ?_⟩
      rw [← Nat.mod_add_mod, show a % N + (j - a % N) = j by omega,
        Nat.mod_eq_of_lt hj]
    · refine ⟨N + j - a % N, by omega, ?_⟩
      rw [← Nat.mod_add_mod, show a % N + (N + j - a % N) = N + j by omega,
        Nat.add_mod_left, Nat.mod_eq_of_lt hj]
  obtain ⟨i0, hi0, he0⟩ := hex
  rw [show (Finset.range N).filter (fun i => (a + i) % N = j) = {i0} from ?_]
  · exact Finset.card_singleton i0
  · refine Finset.eq_singleton_iff_unique_mem.mpr ⟨?_, ?_⟩
    · simp only [Finset.mem_filter, Finset.mem_range]
      exact ⟨hi0, he0⟩
    · intro x hx
      simp only [Finset.mem_filter, Finset.mem_range] at hx
      exact count_res_unique a N j hN x i0 hx.1 hi0 hx.2 he0

theorem count_res_block (a N j : Nat) (hN : 0 < N) (hj : j < N) (K : Nat) :
    ((Finset.range (N + K)).filter (fun i => (a + i) % N = j)).card =
      1 + ((Finset.range K).filter (fun i => (a + i) % N = j)).card := by
  induction K with
  | zero =>
    rw [Nat.add_zero, count_res_window a N j hN hj]
    simp
  | succ K ih =>
    rw [show N + (K + 1) = (N + K) + 1 by omega, count_res_succ, ih,
      count_res_succ]
    rw [show a + (N + K) = a + K + N by omega, Nat.add_mod_right]
    omega

theorem count_res_le_one (a N j K : Nat) (hN : 0 < N) (hK : K ≤ N) :
    ((Finset.range K).filter (fun i => (a + i) % N = j)).card ≤ 1 := by
  apply Finset.card_le_one.mpr
  intro x hx y hy
  simp only [Finset.mem_filter, Finset.mem_range] at hx hy
  exact count_res_unique a N j hN x y (by omega) (by omega) hx.2 hy.2

/-- Over any window of `M` consecutive rotation steps, each registry slot is
hit either `⌊M/N⌋` or `⌈M/N⌉` times. -/
theorem count_res_floor_ceil (a N j M : Nat) (hN : 0 < N) (hj : j < N) :
    ((Finset.range M).filter (fun i => (a + i) % N = j)).card = M / N ∨
    ((Finset.range M).filter (fun i => (a + i) % N = j)).card =
      (M + N - 1) / N := by
  obtain ⟨q, r, hr, hM⟩ : ∃ q r, r < N ∧ M = N * q + r :=
    ⟨M / N, M % N, Nat.mod_lt M hN, (Nat.div_add_mod M N).symm⟩
  subst hM
  have hblock : ∀ q2,
      ((Finset.range (N * q2 + r)).filter (fun i => (a + i) % N = j)).card =
        q2 + ((Finset.range r).filter (fun i => (a + i) % N = j)).card := by
    intro q2
    induction q2 with
    | zero => simp
    | succ q2 ih =>
      rw [show N * (q2 + 1) + r = N + (N * q2 + r) by ring,
        count_res_block a N j hN hj, ih]
      omega
  rw [hblock q]
  have hdivM : (N * q + r) / N = q := by
    rw [Nat.mul_add_div hN, Nat.div_eq_of_lt hr, Nat.add_zero]
  have hsmall := count_res_le_one a N j r hN (by omega)
  rcases Nat.lt_or_ge
      ((Finset.range r).filter (fun i => (a + i) % N = j)).card 1 with hc | hc
  · rw [hdivM]
    exact Or.inl (by omega)
  · have hc1 : ((Finset.range r).filter (fun i => (a + i) % N = j)).card = 1 :=
      by omega
    refine Or.inr ?_
    have hr1 : 1 ≤ r := by
      by_contra hr0
      have hr00 : r = 0 := by omega
      subst hr00
      simp at hc1
    rw [show N * q + r + N - 1 = N * q + (r - 1 + N) by omega,
      Nat.mul_add_div hN, Nat.add_div_right _ hN,
      Nat.div_eq_of_lt (show r - 1 < N by omega)]
    omega


/-! ## Health monitor and reachable registry states -/

/-- The monitor `check_health` updates every host to its probe result and,
since `VERBOSE > 0`, emits one log event per host per cycle — the event
reports the new state, whether or not it changed. -/
theorem check_health_spec (probe : String → Bool) (hosts : List Host) :
    check_health probe hosts =
      (hosts.map (fun h => ⟨h.url, probe h.url⟩),
       hosts.map (fun h =>
         if probe h.url then HEvent.healthyEv h.url
         else HEvent.unhealthyEv h.url)) := by
  induction hosts with
  | nil => rfl
  | cons h t ih =>
    simp only [check_health, ih, List.map_cons]
    rw [if_pos (by decide : 0 < VERBOSE)]
    rfl

theorem loadBalanceF_hosts_length (fuel : Nat) :
    ∀ (conn : String → Bool) (hosts : List Host) (idx : Nat),
      (loadBalanceF fuel conn hosts idx).hosts.length = hosts.length := by
  induction fuel with
  | zero => intro conn hosts idx; rfl
  | succ fuel ih =>
    intro conn hosts idx
    simp only [loadBalanceF]
    by_cases h1 : hosts.length ≤ (selectLoopT hosts idx).2.1
    · rw [if_pos h1]
    · rw [if_neg h1]
      by_cases h2 :
          conn ((hosts.getD (selectLoopT hosts idx).1 default).url) = true
      · rw [if_pos h2]
      · rw [if_neg h2]
        have := ih conn
          (hosts.set (selectLoopT hosts idx).1
            ⟨(hosts.getD (selectLoopT hosts idx).1 default).url, false⟩)
          (selectLoopT hosts idx).1
        simpa [List.length_set] using this

theorem loadBalanceF_idx_lt (fuel : Nat) :
    ∀ (conn : String → Bool) (hosts : List Host) (idx : Nat),
      0 < hosts.length → idx < hosts.length →
      (loadBalanceF fuel conn hosts idx).idx < hosts.length := by
  induction fuel with
  | zero => intro conn hosts idx _ hi; exact hi
  | succ fuel ih =>
    intro conn hosts idx hn hi
    have hk : (selectLoopT hosts idx).1 < hosts.length :=
      selectGo_idx_lt hosts.length hosts idx 0 hn hn
    simp only [loadBalanceF]
    by_cases h1 : hosts.length ≤ (selectLoopT hosts idx).2.1
    · rw [if_pos h1]
      exact hk
    · rw [if_neg h1]
      by_cases h2 :
          conn ((hosts.getD (selectLoopT hosts idx).1 default).url) = true
      · rw [if_pos h2]
        exact hk
      · rw [if_neg h2]
        have := ih conn
          (hosts.set (selectLoopT hosts idx).1
            ⟨(hosts.getD (selectLoopT hosts idx).1 default).url, false⟩)
          (selectLoopT hosts idx).1
          (by simpa [List.length_set] using hn)
          (by simpa [List.length_set] using hk)
        simpa [List.length_set] using this

/-- The cursor invariant: in every reachable registry state with a nonempty
host list, `cursor < len(hosts)`. -/
theorem reach_cursor_lt (urls : List String) (hs : List Host) (i : Nat)
    (hr : Reach urls hs i) : 0 < hs.length → i < hs.length := by
  induction hr with
  | init => exact fun h => h
  | @lb conn hs2 i2 _ ih =>
    intro hlen
    have hl : (load_balance conn hs2 i2).hosts.length = hs2.length :=
      loadBalanceF_hosts_length _ conn hs2 i2
    rw [hl] at hlen ⊢
    exact loadBalanceF_idx_lt _ conn hs2 i2 hlen (ih hlen)
  | @health probe hs2 i2 _ ih =>
    intro hlen
    have hlh : (check_health probe hs2).1.length = hs2.length := by
      rw [check_health_spec]
      simp
    rw [hlh] at hlen ⊢
    exact ih hlen


theorem exists_step_to (n k j : Nat) (hn : 0 < n) (hj : j < n) :
    ∃ m, m < n ∧ (k + 1 + m) % n = j := by
  have h2 : (k + 1) % n < n := Nat.mod_lt _ hn
  by_cases hle : (k + 1) % n ≤ j
  · refine ⟨j - (k + 1) % n, by omega, ?_⟩
    rw [← Nat.mod_add_mod, show (k + 1) % n + (j - (k + 1) % n) = j by omega,
      Nat.mod_eq_of_lt hj]
  · refine ⟨n + j - (k + 1) % n, by omega, ?_⟩
    rw [← Nat.mod_add_mod,
      show (k + 1) % n + (n + j - (k + 1) % n) = n + j by omega,
      Nat.add_mod_left, Nat.mod_eq_of_lt hj]

theorem initialize_hosts_unhealthy (urls : List String) :
    ∀ h ∈ initialize_hosts urls, h.healthy = false := by
  intro h hh
  simp only [initialize_hosts, List.mem_map] at hh
  obtain ⟨u, _, rfl⟩ := hh
  rfl

/-! ## The claims -/

/-- C1: for `N` healthy hosts and `M ≥ N` sequential requests with no health
changes and working backends, request `i` is forwarded to host
`(c + 1 + i) % N` — the rotation continues one step at a time from wherever
the cursor `c` last stopped — and each registry slot `j` receives either
`⌊M/N⌋` or `⌈M/N⌉` of the requests. -/
theorem claim_C1_round_robin (hosts : List Host) (c M : Nat)
    (hall : ∀ h ∈ hosts, h.healthy = true)
    (hn : 0 < hosts.length) (hM : hosts.length ≤ M) :
    ((iterLB (List.replicate M (fun _ => true)) hosts c).1.map
        (fun r => r.result) =
      (List.range M).map
        (fun i => LBResult.forwarded
          ((hosts.getD ((c + 1 + i) % hosts.length) default).url))) ∧
    (∀ j, j < hosts.length →
      ((Finset.range M).filter
          (fun i => (c + 1 + i) % hosts.length = j)).card = M / hosts.length ∨
      ((Finset.range M).filter
          (fun i => (c + 1 + i) % hosts.length = j)).card =
        (M + hosts.length - 1) / hosts.length) := by
  refine ⟨iterLB_all_healthy M hosts c hall hn, ?_⟩
  intro j hj
  exact count_res_floor_ceil (c + 1) hosts.length j M hn hj

/-- Witness for C1: three healthy hosts, cursor at `0`, four requests go to
slots `1, 2, 0, 1`. -/
theorem claim_C1_witness :
    (iterLB (List.replicate 4 (fun _ => true))
        [⟨"a", true⟩, ⟨"b", true⟩, ⟨"c", true⟩] 0).1.map (fun r => r.result) =
      (List.range 4).map
        (fun i => LBResult.forwarded
          ((([⟨"a", true⟩, ⟨"b", true⟩, ⟨"c", true⟩] : List Host).getD
            ((0 + 1 + i) %
              ([⟨"a", true⟩, ⟨"b", true⟩, ⟨"c", true⟩] : List Host).length)
            default).url)) :=
  (claim_C1_round_robin [⟨"a", true⟩, ⟨"b", true⟩, ⟨"c", true⟩] 0 4
    (by decide) (by decide) (by decide)).1

/-- C3: when every host is unhealthy, the selection loop makes at most
`len(hosts)` attempts, no backend connection is opened, no request bytes are
forwarded, and the request ends in the `noHosts` (pool-exhausted) outcome. -/
theorem claim_C3_exhaustion (conn : String → Bool) (hosts : List Host)
    (idx : Nat) (hall : ∀ h ∈ hosts, h.healthy = false) :
    (load_balance conn hosts idx).result = .noHosts ∧
    (load_balance conn hosts idx).connects = [] ∧
    (load_balance conn hosts idx).forwards = [] ∧
    (load_balance conn hosts idx).selects.length ≤ hosts.length := by
  rw [load_balance_all_unhealthy conn hosts idx hall]
  refine ⟨rfl, rfl, rfl, ?_⟩
  simp

/-- Witness for C3: two unhealthy hosts and a connect oracle that would
accept anything — yet nothing is connected or forwarded. -/
theorem claim_C3_witness :
    (load_balance (fun _ => true) [⟨"a", false⟩, ⟨"b", false⟩] 0).result =
        .noHosts ∧
    (load_balance (fun _ => true) [⟨"a", false⟩, ⟨"b", false⟩] 0).connects =
        [] ∧
    (load_balance (fun _ => true) [⟨"a", false⟩, ⟨"b", false⟩] 0).forwards =
        [] ∧
    (load_balance (fun _ => true)
        [⟨"a", false⟩, ⟨"b", false⟩] 0).selects.length ≤
      ([⟨"a", false⟩, ⟨"b", false⟩] : List Host).length :=
  claim_C3_exhaustion (fun _ => true) [⟨"a", false⟩, ⟨"b", false⟩] 0
    (by decide)

/-- C8: in every reachable registry state with a nonempty host list the
cursor satisfies `0 ≤ cursor < len(hosts)` (the lower bound is inherent to
`Nat`), and within a selection pass the `m`-th selection attempt — skips over
unhealthy hosts included — sets the cursor to exactly
`(idx + 1 + m) % len(hosts)`: every attempt advances it by exactly one
position modulo the host count. -/
theorem claim_C8_cursor_invariant :
    (∀ (urls : List String) (hs : List Host) (i : Nat),
      Reach urls hs i → 0 < hs.length → i < hs.length) ∧
    (∀ (hosts : List Host) (idx m : Nat),
      m < (selectLoopT hosts idx).2.2.length →
      (selectLoopT hosts idx).2.2.getD m 0 = (idx + 1 + m) % hosts.length) :=
  ⟨reach_cursor_lt,
   fun hosts idx m hm => selectGo_trace hosts.length hosts idx 0 m hm⟩

/-- Witness for C8: the startup state of a one-host registry, and the second
selection attempt of a pass over three unhealthy hosts landing on slot 2. -/
theorem claim_C8_witness :
    (0 : Nat) < 1 ∧
    (selectLoopT [⟨"a", false⟩, ⟨"b", false⟩, ⟨"c", false⟩] 0).2.2.getD 1 0 =
      2 :=
  ⟨claim_C8_cursor_invariant.1 ["a"] (initialize_hosts ["a"]) 0 Reach.init
      (by decide),
   (claim_C8_cursor_invariant.2 [⟨"a", false⟩, ⟨"b", false⟩, ⟨"c", false⟩] 0 1
      (by decide)).trans (by decide)⟩

/-- C10: `initialize_hosts` creates every host with `healthy = false`, so
before the first health cycle touches the registry every dispatched request
takes the no-available-hosts path: no request is connected or forwarded to
any backend. -/
theorem claim_C10_startup_unhealthy (urls : List String)
    (conns : List (String → Bool)) :
    (∀ h ∈ initialize_hosts urls, h.healthy = false) ∧
    (∀ r ∈ (iterLB conns (initialize_hosts urls) 0).1,
      r.result = .noHosts ∧ r.forwards = [] ∧ r.connects = []) :=
  ⟨initialize_hosts_unhealthy urls,
   iterLB_all_unhealthy conns (initialize_hosts urls)
     (initialize_hosts_unhealthy urls)⟩

/-- Witness for C10: one backend, one request before any health cycle. -/
theorem claim_C10_witness :
    (Host.mk "a" false).healthy = false ∧
    (load_balance (fun _ => true) (initialize_hosts ["a"]) 0).result =
      .noHosts :=
  ⟨(claim_C10_startup_unhealthy ["a"] [fun _ => true]).1 ⟨"a", false⟩
      (by decide),
   ((claim_C10_startup_unhealthy ["a"] [fun _ => true]).2
      (load_balance (fun _ => true) (initialize_hosts ["a"]) 0)
      (by decide)).1⟩


/-- C2: when connecting to the selected candidate fails, the dispatcher marks
exactly that candidate unhealthy in the shared registry and re-enters
selection from the candidate's cursor position within the same request (the
rotation is not reset); because the candidate is now unhealthy it is counted
by the next pass's exhaustion check, so if a healthy host remains the next
connection attempt targets a different, healthy host, and if none remains the
request ends in `noHosts`. -/
theorem claim_C2_failover (conn : String → Bool) (hosts hosts2 : List Host)
    (idx k f : Nat) (tr : List Nat)
    (hsel : selectLoopT hosts idx = (k, f, tr)) (hf : f < hosts.length)
    (hc : conn ((hosts.getD k default).url) = false)
    (hh2 : hosts2 = hosts.set k ⟨(hosts.getD k default).url, false⟩) :
    (load_balance conn hosts idx =
      { result := (load_balance conn hosts2 k).result
        connects := (hosts.getD k default).url ::
          (load_balance conn hosts2 k).connects
        forwards := (load_balance conn hosts2 k).forwards
        selects := tr ++ (load_balance conn hosts2 k).selects
        hosts := (load_balance conn hosts2 k).hosts
        idx := (load_balance conn hosts2 k).idx }) ∧
    ((hosts2.getD k default).healthy = false) ∧
    (∀ i2, i2 ≠ k → hosts2.getD i2 default = hosts.getD i2 default) ∧
    ((∃ j, j < hosts.length ∧ (hosts2.getD j default).healthy = true) →
      (selectLoopT hosts2 k).2.1 < hosts.length ∧
      (hosts2.getD (selectLoopT hosts2 k).1 default).healthy = true ∧
      (selectLoopT hosts2 k).1 ≠ k) ∧
    ((∀ h ∈ hosts2, h.healthy = false) →
      (load_balance conn hosts2 k).result = .noHosts) := by
  have hn : 0 < hosts.length := by omega
  have hk : k < hosts.length := by
    have h0 := selectGo_idx_lt hosts.length hosts idx 0 hn hn
    have h1 : selectGo hosts.length hosts idx 0 = (k, f, tr) := hsel
    rw [h1] at h0
    exact h0
  have hlen2 : hosts2.length = hosts.length := by
    rw [hh2, List.length_set]
  have hmark : (hosts2.getD k default).healthy = false := by
    rw [hh2, List.getD_eq_getElem?_getD, List.getElem?_set_self hk]
    rfl
  refine ⟨by rw [hh2]; exact load_balance_retry conn hosts idx k f tr hsel hf hc,
    hmark, ?_, ?_, ?_⟩
  · intro i2 hi2
    rw [hh2, List.getD_eq_getElem?_getD,
      List.getElem?_set_ne (fun he => hi2 he.symm),
      List.getD_eq_getElem?_getD]
  · rintro ⟨j, hj, hheal⟩
    obtain ⟨m, hm, hmj⟩ := exists_step_to hosts.length k j hn hj
    have hfound : (selectLoopT hosts2 k).2.1 < 0 + hosts2.length := by
      apply selectGo_found
      refine ⟨m, by omega, ?_⟩
      rw [hlen2, hmj]
      exact hheal
    have hdich : (selectLoopT hosts2 k).2.1 = 0 + hosts2.length ∨
        ((selectLoopT hosts2 k).2.1 < 0 + hosts2.length ∧
          (hosts2.getD (selectLoopT hosts2 k).1 default).healthy = true) :=
      selectGo_fails_dichotomy hosts2.length hosts2 k 0
    rcases hdich with hd | ⟨hd1, hd2⟩
    · omega
    · have hne : (selectLoopT hosts2 k).1 ≠ k := by
        intro he
        have hcontr : (hosts2.getD k default).healthy = true := by
          rw [← he]
          exact hd2
        rw [hmark] at hcontr
        exact absurd hcontr (by simp)
      refine ⟨by rw [← hlen2]; omega, hd2, hne⟩
  · intro hall
    rw [load_balance_all_unhealthy conn hosts2 k hall]

/-- Witness for C2: hosts `a, b` healthy, cursor `0`, backend `b` refusing
connections; after the failure the next candidate is `a` (slot 0), healthy
and different from the failed slot 1. -/
theorem claim_C2_witness :
    (selectLoopT [⟨"a", true⟩, ⟨"b", false⟩] 1).2.1 <
        ([⟨"a", true⟩, ⟨"b", true⟩] : List Host).length ∧
    (([⟨"a", true⟩, ⟨"b", false⟩] : List Host).getD
        (selectLoopT [⟨"a", true⟩, ⟨"b", false⟩] 1).1 default).healthy =
      true ∧
    (selectLoopT [⟨"a", true⟩, ⟨"b", false⟩] 1).1 ≠ 1 :=
  (claim_C2_failover (fun u => u == "a") [⟨"a", true⟩, ⟨"b", true⟩]
      [⟨"a", true⟩, ⟨"b", false⟩] 0 1 0 [1]
      (by decide) (by decide) (by decide) (by decide)).2.2.2.1
    ⟨0, by decide, by decide⟩


/-- C4 counterexample: the stream `"\xFF\n\r\n"` is a complete message
(start line, empty header block, no body), but `read_http` decodes the start
line for logging (`VERBOSE = 1`) and the `unwrap` panics on the non-UTF8
byte, so no output is produced — decoding does affect the bytes produced. -/
theorem claim_C4_counterexample :
    read_http [255, 10, 13, 10] = .panic ∧
    read_http [255, 10, 13, 10] ≠ .ok [255, 10, 13, 10] [] := by
  decide

/-- C4 (amended): provided the start line and every header line are valid
UTF-8 — the framer decodes them and panics otherwise — the output is the
exact byte concatenation of start line, header lines including the
terminating blank line, and exactly `Content-Length` body bytes and no more;
non-UTF8 bytes in the body never affect the output. -/
theorem claim_C4_exact_relay (l1 : List Nat) (hs : List (List Nat)) (cl : Nat)
    (body rest : List Nat)
    (h1 : lineOk l1 = true) (h1d : (utf8Decode l1).isSome = true)
    (hhs : ∀ l ∈ hs, lineOk l = true ∧ utf8Decode l ≠ some [13, 10])
    (hcl : clFold hs 0 = some cl)
    (hbody : body.length = cl) :
    read_http (l1 ++ (hs.flatten ++ ([13, 10] ++ (body ++ rest)))) =
      .ok (l1 ++ (hs.flatten ++ ([13, 10] ++ body))) rest :=
  read_http_ok_exact l1 hs cl body rest h1 h1d hhs hcl hbody

/-- Witness for C4: message `"G\nContent-Length: 2\r\n\r\n"` with the
non-UTF8 body `0xFF 0xFE`; exactly two body bytes are consumed, the trailing
byte `0x41` is left unread, and the output is byte-identical. -/
theorem claim_C4_witness :
    read_http ([71, 10] ++
        ([[67, 111, 110, 116, 101, 110, 116, 45, 76, 101, 110, 103, 116, 104,
           58, 32, 50, 13, 10]].flatten ++
          ([13, 10] ++ ([255, 254] ++ [65])))) =
      .ok ([71, 10] ++
        ([[67, 111, 110, 116, 101, 110, 116, 45, 76, 101, 110, 103, 116, 104,
           58, 32, 50, 13, 10]].flatten ++
          ([13, 10] ++ [255, 254]))) [65] :=
  claim_C4_exact_relay [71, 10]
    [[67, 111, 110, 116, 101, 110, 116, 45, 76, 101, 110, 103, 116, 104,
      58, 32, 50, 13, 10]] 2 [255, 254] [65]
    (by decide) (by decide) (by decide) (by decide) (by decide)

/-- C5 counterexample: `"A\nContent-Length: 5\r\n\r\nab"` closes after only
two of the five declared body bytes; the claim says the framer must fail with
a truncated-message error, but the code ignores the `read_exact` error
(`let _ = ...`) and returns a framed message with the body zero-padded to the
declared length. -/
theorem claim_C5_counterexample :
    read_http [65, 10, 67, 111, 110, 116, 101, 110, 116, 45, 76, 101, 110,
        103, 116, 104, 58, 32, 53, 13, 10, 13, 10, 97, 98] =
      .ok [65, 10, 67, 111, 110, 116, 101, 110, 116, 45, 76, 101, 110, 103,
        116, 104, 58, 32, 53, 13, 10, 13, 10, 97, 98, 0, 0, 0] [] := by
  decide

/-- C5 (amended): when the stream closes before `Content-Length` body bytes
are available, `read_http` does not fail: it discards the read error and
returns a message whose body is the available bytes followed by the body
buffer's zero initialization, up to the declared length. -/
theorem claim_C5_truncated_returns (l1 : List Nat) (hs : List (List Nat))
    (cl : Nat) (body : List Nat)
    (h1 : lineOk l1 = true) (h1d : (utf8Decode l1).isSome = true)
    (hhs : ∀ l ∈ hs, lineOk l = true ∧ utf8Decode l ≠ some [13, 10])
    (hcl : clFold hs 0 = some cl)
    (hbody : body.length < cl) :
    read_http (l1 ++ (hs.flatten ++ ([13, 10] ++ body))) =
      .ok (l1 ++ (hs.flatten ++ ([13, 10] ++
        (body ++ List.replicate (cl - body.length) 0)))) [] :=
  read_http_truncated l1 hs cl body h1 h1d hhs hcl hbody

/-- Witness for C5: the truncated message from the counterexample, padded
with three zero bytes. -/
theorem claim_C5_witness :
    read_http ([65, 10] ++
        ([[67, 111, 110, 116, 101, 110, 116, 45, 76, 101, 110, 103, 116, 104,
           58, 32, 53, 13, 10]].flatten ++
          ([13, 10] ++ [97, 98]))) =
      .ok ([65, 10] ++
        ([[67, 111, 110, 116, 101, 110, 116, 45, 76, 101, 110, 103, 116, 104,
           58, 32, 53, 13, 10]].flatten ++
          ([13, 10] ++ ([97, 98] ++ List.replicate 3 0)))) [] :=
  claim_C5_truncated_returns [65, 10]
    [[67, 111, 110, 116, 101, 110, 116, 45, 76, 101, 110, 103, 116, 104,
      58, 32, 53, 13, 10]] 5 [97, 98]
    (by decide) (by decide) (by decide) (by decide) (by decide)

/-- C6 counterexample: header `"Content-Length: 1: 2"`.  The header's value
(everything after the first `": "`) is `"1: 2"`, which after whitespace
stripping is `"1:2"` and does not parse — per the claim this must be a fatal
framing error.  The code instead splits on every `": "`, takes `header[1]`
(the segment `"1"` between the first and second separators), frames a 1-byte
body, and succeeds. -/
theorem claim_C6_counterexample :
    parseUsize (strip [49, 58, 32, 50]) = none ∧
    read_http [65, 10, 67, 111, 110, 116, 101, 110, 116, 45, 76, 101, 110,
        103, 116, 104, 58, 32, 49, 58, 32, 50, 13, 10, 13, 10, 88, 89] =
      .ok [65, 10, 67, 111, 110, 116, 101, 110, 116, 45, 76, 101, 110, 103,
        116, 104, 58, 32, 49, 58, 32, 50, 13, 10, 13, 10, 88] [89] := by
  decide

/-- C6 (amended): the value actually used is the segment of the header line
between the first and second `": "` occurrences (`split(": ")[1]`), with all
whitespace (CR included) stripped, parsed as a non-negative 64-bit integer;
a repeated header's last occurrence overrides any earlier value; and an
unparseable segment panics `read_http` — fatal to that connection's task,
with no silent default. -/
theorem claim_C6_cl_parsing :
    (∀ (hs : List (List Nat)) (l cps v : List Nat) (parts : List (List Nat))
        (c c0 : Nat),
      clFold hs c = some c0 → utf8Decode l = some cps →
      splitHeader cps = contentLengthCps :: v :: parts →
      clFold (hs ++ [l]) c = parseUsize (strip v)) ∧
    (∀ (l1 : List Nat) (hs : List (List Nat)) (l cps v : List Nat)
        (parts : List (List Nat)) (z : List Nat) (c0 : Nat),
      lineOk l1 = true → (utf8Decode l1).isSome = true →
      (∀ m ∈ hs, lineOk m = true ∧ utf8Decode m ≠ some [13, 10]) →
      clFold hs 0 = some c0 → lineOk l = true → utf8Decode l = some cps →
      splitHeader cps = contentLengthCps :: v :: parts →
      parseUsize (strip v) = none →
      read_http (l1 ++ (hs.flatten ++ (l ++ z))) = .panic) :=
  ⟨fun hs l cps v parts c c0 hprev hdec hsplit =>
      clFold_last_wins hs l cps v parts c c0 hprev hdec hsplit,
   fun l1 hs l cps v parts z c0 h1 h1d hhs hcl hl hdec hsplit hbad =>
      read_http_bad_cl_panics l1 hs l cps v parts z c0 h1 h1d hhs hcl hl
        hdec hsplit hbad⟩

/-- Witness for C6: a `Content-Length: 5` header overridden by a later
`Content-Length: 7` header (last occurrence wins), and a
`Content-Length: x` header panicking the framer. -/
theorem claim_C6_witness :
    clFold ([[67, 111, 110, 116, 101, 110, 116, 45, 76, 101, 110, 103, 116,
        104, 58, 32, 53, 13, 10]] ++
      [[67, 111, 110, 116, 101, 110, 116, 45, 76, 101, 110, 103, 116, 104,
        58, 32, 55, 13, 10]]) 0 = parseUsize (strip [55, 13, 10]) ∧
    read_http ([65, 10] ++
        (List.flatten [] ++
          ([67, 111, 110, 116, 101, 110, 116, 45, 76, 101, 110, 103, 116,
            104, 58, 32, 120, 13, 10] ++ []))) = .panic :=
  ⟨claim_C6_cl_parsing.1
      [[67, 111, 110, 116, 101, 110, 116, 45, 76, 101, 110, 103, 116, 104,
        58, 32, 53, 13, 10]]
      [67, 111, 110, 116, 101, 110, 116, 45, 76, 101, 110, 103, 116, 104,
        58, 32, 55, 13, 10]
      [67, 111, 110, 116, 101, 110, 116, 45, 76, 101, 110, 103, 116, 104,
        58, 32, 55, 13, 10]
      [55, 13, 10] [] 0 5 (by decide) (by decide) (by decide),
   claim_C6_cl_parsing.2 [65, 10] []
      [67, 111, 110, 116, 101, 110, 116, 45, 76, 101, 110, 103, 116, 104,
        58, 32, 120, 13, 10]
      [67, 111, 110, 116, 101, 110, 116, 45, 76, 101, 110, 103, 116, 104,
        58, 32, 120, 13, 10]
      [120, 13, 10] [] [] 0
      (by decide) (by decide) (by decide) (by decide) (by decide) (by decide)
      (by decide) (by decide)⟩

/-- C7 counterexample: one host already healthy, a probe reporting healthy
again — identical to the previous cycle — yet `check_health` still emits a
health log event for it (the code logs every host every cycle). -/
theorem claim_C7_counterexample :
    (check_health (fun _ => true) [⟨"h1", true⟩]).2 =
        [HEvent.healthyEv "h1"] ∧
    [HEvent.healthyEv "h1"] ≠ ([] : List HEvent) := by
  decide

/-- C7 (amended): every health-check cycle emits exactly one log event per
registered host (at the compiled-in `VERBOSE = 1`), reporting the probe's new
result, whether or not the host's state changed since the previous cycle. -/
theorem claim_C7_log_every_cycle (probe : String → Bool) (hosts : List Host) :
    (check_health probe hosts).2 =
      hosts.map (fun h =>
        if probe h.url then HEvent.healthyEv h.url
        else HEvent.unhealthyEv h.url) := by
  rw [check_health_spec]

/-- C9 counterexample: the stream `"A\nContent-Length: x\r\n"` reaches end of
input before any bare-CRLF header line, yet the framer does not loop forever:
the unparseable `Content-Length` value panics it first. -/
theorem claim_C9_counterexample :
    (∀ l ∈ linesOf (readLine ([65, 10] ++ [67, 111, 110, 116, 101, 110, 116,
        45, 76, 101, 110, 103, 116, 104, 58, 32, 120, 13, 10])).2,
      utf8Decode l ≠ some [13, 10]) ∧
    read_http ([65, 10] ++ [67, 111, 110, 116, 101, 110, 116, 45, 76, 101,
        110, 103, 116, 104, 58, 32, 120, 13, 10]) = .panic := by
  decide

/-- C9 (amended): `read_http` loops forever exactly when the start line
decodes as UTF-8 and the header section reaches end of input with every line
processed without panic (UTF-8 decodable, `Content-Length` parseable) and no
line decoding to the bare CRLF terminator — at end of input `read_until`
returns zero new bytes forever; and it returns a message only when some
header line decodes to the bare CRLF terminator. -/
theorem claim_C9_termination :
    (∀ s : List Nat,
      read_http s = .diverge ↔
        ((utf8Decode (readLine s).1).isSome = true ∧
          ∀ l ∈ linesOf (readLine s).2,
            lineProcessed l = true ∧ utf8Decode l ≠ some [13, 10])) ∧
    (∀ s m r : List Nat, read_http s = .ok m r →
      ∃ l ∈ linesOf (readLine s).2, utf8Decode l = some [13, 10]) :=
  ⟨read_http_diverge_iff, read_http_ok_crlf⟩

/-- Witness for C9: the empty-header message `"A\n\r\n"` returns, and indeed
its header section contains the bare CRLF line. -/
theorem claim_C9_witness :
    ∃ l ∈ linesOf (readLine [65, 10, 13, 10]).2,
      utf8Decode l = some [13, 10] :=
  claim_C9_termination.2 [65, 10, 13, 10] [65, 10, 13, 10] [] (by decide)

end LB
